import Mathlib

/-!
# Sanitisation and rendering pipeline of the factsheet / newsletter widgets

Shallow embedding of `src/factsheet-widget.js` and `src/newsletter-widget.js`.  The two
files are the same program up to the words "factsheet" / "newsletter", so one embedding
serves both; the word that differs is a parameter where it reaches the output.

The widgets call into the browser: `innerHTML` (setter and getter), `textContent`,
`querySelectorAll`, `remove`, `removeAttribute`, `toLowerCase`, `startsWith`.  These are
modelled below after the DOM and HTML standards:

* a detached element's content is a list of `Node`s: text, comment and element nodes,
  an element carrying its namespace, its local name, its attribute list and its children;
* an HTML `template` element is a node of its own: the parser gives it no children and
  puts what is written inside it into a separate fragment, the template contents, which
  `querySelectorAll` does not visit and the `innerHTML` getter serialises;
* the `innerHTML` setter is the HTML fragment parser.  It is not modelled; where a
  statement is about a string input the parser is a parameter `parseFragment`;
* the `innerHTML` getter is the HTML fragment serialisation algorithm, `serializeNodes`;
* strings are sequences of characters; every comparison the widgets make is with an
  ASCII string.

Two facts about parsed trees are stated as hypotheses where a proof needs them:
`DistinctAttrNames` (an element never has two attributes of the same name) and
`HandlerNamesLowerCase` (the tokenizer lower-cases attribute names, so a name that
begins with `on` in some letter case is stored in lower case).
-/

namespace Widget

/-! ## DOM model -/

/-- An attribute of an element: qualified name and value. -/
structure Attr where
  name : String
  value : String
deriving DecidableEq, Repr

/-- The namespace of an element the HTML parser creates. -/
inductive Namespace where
  | html
  | svg
  | mathml
deriving DecidableEq, Repr

/-- A node below a detached element.  `template` is an HTML `template` element as the
parser builds it: it has no children, and `content` holds its template contents. -/
inductive Node where
  | text (data : String)
  | comment (data : String)
  | element (space : Namespace) (tag : String) (attrs : List Attr) (children : List Node)
  | template (attrs : List Attr) (content : List Node)
deriving Repr

/-! ## Platform string primitives -/

/-- `String.prototype.startsWith`. -/
def startsWith (s pre : String) : Bool :=
  pre.data.isPrefixOf s.data

/-- Lower-case form of one character as `String.prototype.toLowerCase` computes it, for
the characters whose lower-case form contains an ASCII character: the letters `A`-`Z`,
U+212A KELVIN SIGN (`k`) and U+0130 (`i` followed by U+0307).  Every other character maps
to non-ASCII characters; it is kept as it is, which gives the same answer to every
comparison with an ASCII string. -/
def lowerChar (c : Char) : List Char :=
  if c = '\u212a' then ['k']
  else if c = '\u0130' then ['i', '\u0307']
  else [c.toLower]

/-- `String.prototype.toLowerCase`. -/
def toLowerCase (s : String) : String :=
  ⟨s.data.flatMap lowerChar⟩

/-! ## HTML fragment serialisation (the `innerHTML` getter) -/

/-- HTML elements that serialise without children and without an end tag. -/
def voidElements : List String :=
  ["area", "base", "basefont", "bgsound", "br", "col", "embed", "frame", "hr", "img",
   "input", "keygen", "link", "meta", "param", "source", "track", "wbr"]

/-- HTML elements whose text children serialise literally (`noscript` is among them
because scripting is enabled wherever the widget runs). -/
def rawTextElements : List String :=
  ["style", "script", "xmp", "iframe", "noembed", "noframes", "plaintext", "noscript"]

/-- Escaping of one character ("escaping a string" of the HTML standard): `&` and U+00A0
always, `"` in attribute mode, `<` and `>` outside it.  The apostrophe is never escaped,
and `"` is not escaped in text.  (Recent revisions of the standard escape `<` and `>` in
attribute mode as well; nothing below depends on how attribute values are escaped.) -/
def escapeChar (attributeMode : Bool) (c : Char) : String :=
  if c = '&' then "&amp;"
  else if c = '\u00a0' then "&nbsp;"
  else if attributeMode then (if c = '"' then "&quot;" else String.singleton c)
  else if c = '<' then "&lt;"
  else if c = '>' then "&gt;"
  else String.singleton c

/-- Escaping of a string. -/
def escapeString (attributeMode : Bool) (s : String) : String :=
  String.join (s.data.map (escapeChar attributeMode))

/-- Serialisation of one attribute: a space, the name, `="`, the escaped value, `"`. -/
def serializeAttr (a : Attr) : String :=
  " " ++ a.name ++ "=\"" ++ escapeString true a.value ++ "\""

/-- Serialisation of an attribute list. -/
def serializeAttrs (attrs : List Attr) : String :=
  String.join (attrs.map serializeAttr)

mutual
/-- Serialisation of one node.  `literal` says that the parent is one of the HTML
elements of `rawTextElements`, whose text children are written as they are.  A template
serialises its contents, whose text is escaped. -/
def serializeNode (literal : Bool) : Node → String
  | .text data => if literal then data else escapeString false data
  | .comment data => "<!--" ++ data ++ "-->"
  | .element space tag attrs children =>
      "<" ++ tag ++ serializeAttrs attrs ++ ">" ++
        (if space = .html ∧ tag ∈ voidElements then ""
         else
           serializeNodes (decide (space = .html ∧ tag ∈ rawTextElements)) children ++
             "</" ++ tag ++ ">")
  | .template attrs content =>
      "<template" ++ serializeAttrs attrs ++ ">" ++ serializeNodes false content ++
        "</template>"
/-- Serialisation of a list of sibling nodes: the `innerHTML` of their parent. -/
def serializeNodes (literal : Bool) : List Node → String
  | [] => ""
  | n :: ns => serializeNode literal n ++ serializeNodes literal ns
end

/-- The `textContent` setter: the children become one text node, or none for `""`. -/
def setTextContent (text : String) : List Node :=
  if text = "" then [] else [.text text]

/-! ## `escapeHtml` (lines 81-87) -/

/-- `escapeHtml` on a string argument:
`div = createElement("div"); div.textContent = text; return div.innerHTML`. -/
def escapeHtml (text : String) : String :=
  serializeNodes false (setTextContent text)

/-! ## `sanitizeHtml` (lines 89-120) -/

/-- `dangerousTags` (line 98). -/
def dangerousTags : List String :=
  ["script", "iframe", "object", "embed", "form", "input", "button"]

mutual
/-- Removal of the selected elements, seen from one node: `none` when the node itself is
selected, so that it leaves the tree with everything below it. -/
def removeSelectedNode (selected : String → Bool) : Node → Option Node
  | .text data => some (.text data)
  | .comment data => some (.comment data)
  | .element space tag attrs children =>
      if selected tag then none
      else some (.element space tag attrs (removeSelected selected children))
  | .template attrs content =>
      if selected "template" then none else some (.template attrs content)
/-- `temp.querySelectorAll(..).forEach((el) => el.remove())`: every element whose local
name is selected is detached from its parent.  The selection looks at local names in any
namespace and does not enter template contents. -/
def removeSelected (selected : String → Bool) : List Node → List Node
  | [] => []
  | n :: ns =>
      match removeSelectedNode selected n with
      | none => removeSelected selected ns
      | some kept => kept :: removeSelected selected ns
end

/-- Lines 99-102: one `querySelectorAll(tag)` removal pass per entry of `dangerousTags`,
in the order of the array. -/
def removeDangerousElements (temp : List Node) : List Node :=
  dangerousTags.foldl (fun nodes tag => removeSelected (fun name => name == tag) nodes) temp

/-- The condition of lines 109-113 on one attribute. -/
def isDangerousAttribute (attr : Attr) : Bool :=
  startsWith attr.name "on" ||
  (attr.name == "href" && startsWith (toLowerCase attr.value) "javascript:") ||
  (attr.name == "src" && startsWith (toLowerCase attr.value) "javascript:")

/-- `el.removeAttribute(name)`: the first attribute with that qualified name is removed.
(On an HTML element the platform lower-cases `name` first; the names the parser stores on
HTML elements are in lower case already.) -/
def removeAttribute (name : String) (attrs : List Attr) : List Attr :=
  attrs.eraseP (fun a => a.name == name)

/-- Lines 108-116 on one element: `Array.from(el.attributes)` is a snapshot, and each
snapshot entry that meets the condition has its name removed from the live list. -/
def cleanAttributes (attrs : List Attr) : List Attr :=
  attrs.foldl
    (fun live attr => if isDangerousAttribute attr then removeAttribute attr.name live else live)
    attrs

mutual
/-- Attribute cleaning below one node. -/
def cleanElementsNode : Node → Node
  | .text data => .text data
  | .comment data => .comment data
  | .element space tag attrs children =>
      .element space tag (cleanAttributes attrs) (cleanElements children)
  | .template attrs content => .template (cleanAttributes attrs) content
/-- Lines 105-117: `temp.querySelectorAll("*")` visits every element below `temp`, at
any depth; it visits a template but not the template's contents. -/
def cleanElements : List Node → List Node
  | [] => []
  | n :: ns => cleanElementsNode n :: cleanElements ns
end

/-- Lines 98-117: what `sanitizeHtml` does to the children of `temp`. -/
def sanitizeTree (temp : List Node) : List Node :=
  cleanElements (removeDangerousElements temp)

/-- `sanitizeHtml` on a string argument: `temp.innerHTML = html`, the two clean-up loops,
`return temp.innerHTML`.  `parseFragment` is the platform's fragment parser. -/
def sanitizeHtml (parseFragment : String → List Node) (html : String) : String :=
  serializeNodes false (sanitizeTree (parseFragment html))

/-! ## Observations on trees, used to state properties -/

mutual
/-- Descriptors of the elements below one node. -/
def elementsOfNode : Node → List (String × List Attr)
  | .text _ => []
  | .comment _ => []
  | .element _ tag attrs children => (tag, attrs) :: elementsOf children
  | .template attrs _ => [("template", attrs)]
/-- Every element reached from the given nodes through child lists (the elements
`querySelectorAll` visits), at any depth, in document order, as local name and attribute
list.  The contents of a template are not among them. -/
def elementsOf : List Node → List (String × List Attr)
  | [] => []
  | n :: ns => elementsOfNode n ++ elementsOf ns
end

mutual
/-- Kept elements below one node. -/
def keptElementsNode : Node → List (String × List Attr)
  | .text _ => []
  | .comment _ => []
  | .element _ tag attrs children =>
      if tag ∈ dangerousTags then [] else (tag, attrs) :: keptElements children
  | .template attrs _ => [("template", attrs)]
/-- The elements reached through child lists that are neither denylisted nor inside a
denylisted element, in document order. -/
def keptElements : List Node → List (String × List Attr)
  | [] => []
  | n :: ns => keptElementsNode n ++ keptElements ns
end

/-- DOM invariant, for the elements reached through child lists: the attributes of one
element have pairwise distinct names. -/
def DistinctAttrNames (nodes : List Node) : Prop :=
  ∀ e ∈ elementsOf nodes, (e.2.map Attr.name).Nodup

/-- ASCII lower-casing, the tokenizer's treatment of the names it reads. -/
def asciiLowerCase (s : String) : String :=
  ⟨s.data.map Char.toLower⟩

/-- A name begins with `on` in some letter case. -/
def beginsWithOn (name : String) : Bool :=
  startsWith (asciiLowerCase name) "on"

/-- Parser invariant: an attribute name that begins with `on` in some letter case is
stored in lower case. -/
def HandlerNamesLowerCase (nodes : List Node) : Prop :=
  ∀ e ∈ elementsOf nodes, ∀ a ∈ e.2, beginsWithOn a.name = true → asciiLowerCase a.name = a.name

/-- An `href` or `src` attribute whose value begins with `javascript:` when letter case
is ignored. -/
def isJavascriptUrl (attr : Attr) : Bool :=
  (attr.name == "href" || attr.name == "src") &&
    startsWith (asciiLowerCase attr.value) "javascript:"

/-- White space and line terminators of ECMAScript, the characters `trim` strips. -/
def isWhiteSpace (c : Char) : Bool :=
  c ∈ ['\t', '\n', '\u000b', '\u000c', '\r', ' ', '\u00a0', '\u1680', '\u2000', '\u2001',
       '\u2002', '\u2003', '\u2004', '\u2005', '\u2006', '\u2007', '\u2008', '\u2009',
       '\u200a', '\u2028', '\u2029', '\u202f', '\u205f', '\u3000', '\ufeff']

/-- `String.prototype.trim`. -/
def trim (s : String) : String :=
  ⟨((s.data.dropWhile isWhiteSpace).reverse.dropWhile isWhiteSpace).reverse⟩

/-- Condition on an ASCII comparison string under which `toLowerCase` and ASCII
lower-casing give the same answer to "does the value begin with it". -/
def lowerSafe : List Char → Bool
  | [] => true
  | t :: rest =>
      (t != 'k' && t != '\u212a' && t != '\u0130' &&
        (t != 'i' || (match rest with
                      | [] => false
                      | x :: _ => x != '\u0307'))) && lowerSafe rest

mutual
/-- The sanitiser as the specification words it, seen from one node. -/
def expectedNode : Node → Option Node
  | .text data => some (.text data)
  | .comment data => some (.comment data)
  | .element space tag attrs children =>
      if tag ∈ dangerousTags then none
      else
        some (.element space tag
          (attrs.filter (fun a => !(beginsWithOn a.name || isJavascriptUrl a)))
          (expectedTree children))
  | .template attrs content =>
      some (.template
        (attrs.filter (fun a => !(beginsWithOn a.name || isJavascriptUrl a))) content)
/-- The sanitiser as the specification words it, in one walk over the child lists: a
denylisted element goes with its subtree; on every other element the attributes whose
name begins with `on` and the `javascript:` `href` / `src` attributes go; everything else
stays where it is, the contents of a template included. -/
def expectedTree : List Node → List Node
  | [] => []
  | n :: ns =>
      match expectedNode n with
      | none => expectedTree ns
      | some kept => kept :: expectedTree ns
end

/-- A tree without any of the constructs the sanitiser removes, on the elements reached
through child lists. -/
def Harmless (nodes : List Node) : Prop :=
  ∀ e ∈ elementsOf nodes,
    e.1 ∉ dangerousTags ∧ ∀ a ∈ e.2, beginsWithOn a.name = false ∧ isJavascriptUrl a = false

/-- A lookup table standing in for the parser on the inputs used as examples below.  A
line feed right after `<pre>` is dropped by the parser, and what is written inside
`<template>` becomes the template's contents. -/
def sampleParse (html : String) : List Node :=
  if html = "<p onclick=\"f()\">Hi<script>f()</script></p>" then
    [Node.element .html "p" [⟨"onclick", "f()"⟩]
      [Node.text "Hi", Node.element .html "script" [] [Node.text "f()"]]]
  else if html = "<p>Hi</p>" then [Node.element .html "p" [] [Node.text "Hi"]]
  else if html = "<pre>\n\nfoo</pre>" then [Node.element .html "pre" [] [Node.text "\nfoo"]]
  else if html = "<pre>\nfoo</pre>" then [Node.element .html "pre" [] [Node.text "foo"]]
  else if html = "<pre>foo</pre>" then [Node.element .html "pre" [] [Node.text "foo"]]
  else if html = "<script>alert(1)</script>" then
    [Node.element .html "script" [] [Node.text "alert(1)"]]
  else if html = "<template><script>alert(1)</script></template>" then
    [Node.template [] [Node.element .html "script" [] [Node.text "alert(1)"]]]
  else if html = "<img src=x onerror=\"alert(1)\">" then
    [Node.element .html "img" [⟨"src", "x"⟩, ⟨"onerror", "alert(1)"⟩] []]
  else if html = "<template><img src=x onerror=\"alert(1)\"></template>" then
    [Node.template [] [Node.element .html "img" [⟨"src", "x"⟩, ⟨"onerror", "alert(1)"⟩] []]]
  else if html = "<img src=\"javascript:alert(1)\" onerror=\"alert(2)\">" then
    [Node.element .html "img" [⟨"src", "javascript:alert(1)"⟩, ⟨"onerror", "alert(2)"⟩] []]
  else if html = "<a href=\"javascript:alert(1)\">x</a>" then
    [Node.element .html "a" [⟨"href", "javascript:alert(1)"⟩] [Node.text "x"]]
  else if html = "<template><a href=\"javascript:alert(1)\">x</a></template>" then
    [Node.template []
      [Node.element .html "a" [⟨"href", "javascript:alert(1)"⟩] [Node.text "x"]]]
  else [Node.text html]

/-! ## Content items and their rendering (lines 52-79 and 122-159) -/

/-- A section of a content item as it arrives in the JSON payload; `none` is an absent
or `null` member. -/
structure Section where
  title : Option String
  content : Option (List String)

/-- A content item (factsheet or newsletter) as it arrives in the JSON payload. -/
structure ContentItem where
  title : Option String
  intro : Option String
  sections : Option (List Section)
  link : Option String
  createdAt : Option String

/-- `value || fallback` on a string member: absent, `null` and `""` are falsy. -/
def orDefault (value : Option String) (fallback : String) : String :=
  match value with
  | some s => if s = "" then fallback else s
  | none => fallback

/-- The block appended for one section (lines 60-76). -/
def sectionFragment (parseFragment : String → List Node) (sec : Section) : String :=
  "\n        <div class=\"section\">\n          <h4>" ++
    escapeHtml (orDefault sec.title "Untitled Section") ++
    "</h4>\n          " ++
    (match sec.content with
     | some content =>
         "".intercalate
           (content.map (fun c =>
             "<div class=\"section-content\">" ++ sanitizeHtml parseFragment c ++ "</div>"))
     | none => "") ++
    "\n        </div>\n      "

/-- `formatSections` (lines 53-79). -/
def formatSections (parseFragment : String → List Node) (sections : Option (List Section)) :
    String :=
  match sections with
  | none => "<p class='empty'>No sections available</p>"
  | some sections =>
      if sections.length = 0 then "<p class='empty'>No sections available</p>"
      else
        sections.foldl
          (fun sectionsHTML sec => sectionsHTML ++ sectionFragment parseFragment sec) ""

/-- The block appended for one item (lines 131-155).  `toLocaleDateString` stands for
`new Date(..).toLocaleDateString()`, which depends on the host's locale. -/
def itemFragment (parseFragment : String → List Node) (toLocaleDateString : String → String)
    (factsheet : ContentItem) : String :=
  let title := orDefault factsheet.title "No title"
  let intro := orDefault factsheet.intro "No introduction"
  let sections := factsheet.sections.getD []
  let link := orDefault factsheet.link ""
  let createdAt :=
    match factsheet.createdAt with
    | some c => if c = "" then "" else toLocaleDateString c
    | none => ""
  "\n        <div class=\"item\">\n          <h3>" ++ escapeHtml title ++ "</h3>\n          " ++
    (if createdAt = "" then "" else "<p><small>Created: " ++ createdAt ++ "</small></p>") ++
    "\n          <div class=\"intro\">" ++ sanitizeHtml parseFragment intro ++
    "</div>\n          " ++ formatSections parseFragment (some sections) ++ "\n          " ++
    (if link = "" then ""
     else "<p><a href=\"" ++ escapeHtml link ++
       "\" target=\"_blank\" rel=\"noopener noreferrer\">View Link: " ++ escapeHtml link ++
       "</a></p>") ++
    "\n        </div>\n      "

/-- `renderFactsheets` / `renderNewsletters` (lines 123-159): the value assigned to
`container.innerHTML`.  `kind` is `factsheets` or `newsletters`. -/
def renderFactsheets (kind : String) (parseFragment : String → List Node)
    (toLocaleDateString : String → String) (factsheets : List ContentItem) : String :=
  if factsheets.length = 0 then "<p class=\"empty\">No " ++ kind ++ " found</p>"
  else
    factsheets.foldl
      (fun html factsheet => html ++ itemFragment parseFragment toLocaleDateString factsheet) ""

/-! ## `fetchData` (lines 212-250) -/

/-- A JSON value as far as `fetchData` looks at it: its truthiness and its string
conversion.  A number is given by whether it is zero and by its string conversion, an
array or object by its string conversion. -/
inductive JsValue where
  | null
  | boolean (b : Bool)
  | number (isZero : Bool) (text : String)
  | string (s : String)
  | object (text : String)

/-- Truthiness of a value (the left operand of `||`). -/
def JsValue.truthy : JsValue → Bool
  | .null => false
  | .boolean b => b
  | .number isZero _ => !isZero
  | .string s => s != ""
  | .object _ => true

/-- String conversion of a value, as `new Error(value)` stores it in `message`. -/
def JsValue.toText : JsValue → String
  | .null => "null"
  | .boolean b => if b then "true" else "false"
  | .number _ text => text
  | .string s => s
  | .object text => text

/-- What `response.json()` resolves to: JSON `null`, or any other value together with
its `message` property (`none` when it has none). -/
inductive JsonBody where
  | null
  | value (message : Option JsValue)

/-- A response as `fetchData` reads it.  `json` is the outcome of `response.json()`: the
parsed body, or the message of the error the promise rejects with when the body is not
JSON. -/
structure Response where
  ok : Bool
  status : Nat
  json : Except String JsonBody

/-- `fetchData`: the value the promise chain assigns to the result element's `innerHTML`.
`fetched` is the outcome of `fetch` (a rejection carries the error's message), `showData`
is the second `then` callback (lines 232-245), and `typeErrorMessage` is the message of the
engine's TypeError for reading a property of `null`. -/
def fetchData (typeErrorMessage : String) (showData : JsonBody → Except String String)
    (fetched : Except String Response) : String :=
  let settled : Except String String := do
    let response ← fetched
    let data ←
      if !response.ok then
        (do
          let errorData ← response.json
          match errorData with
          | .null => throw typeErrorMessage
          | .value message =>
              let fallback := "HTTP error! status: " ++ toString response.status
              match message with
              | some m => throw (if m.truthy then m.toText else fallback)
              | none => throw fallback)
      else response.json
    showData data
  match settled with
  | .ok html => html
  | .error message => "<div class=\"error\">Error: " ++ message ++ "</div>"

/-! ## Facts about strings -/

theorem foldl_append_data (l : List String) (acc : String) :
    (l.foldl (fun r s => r ++ s) acc).data = acc.data ++ l.flatMap String.data := by
  induction l generalizing acc with
  | nil => simp
  | cons x xs ih => simp [ih, String.data_append]

theorem join_data (l : List String) : (String.join l).data = l.flatMap String.data := by
  simp [String.join, foldl_append_data]

theorem escapeString_data (m : Bool) (s : String) :
    (escapeString m s).data = s.data.flatMap (fun c => (escapeChar m c).data) := by
  simp [escapeString, join_data, List.flatMap_map, List.flatMap]
  rfl

theorem escapeHtml_eq (s : String) : escapeHtml s = escapeString false s := by
  unfold escapeHtml setTextContent
  by_cases h : s = ""
  · subst h; simp [serializeNodes]; rfl
  · simp [h, serializeNodes, serializeNode]

theorem escapeChar_text_cases (c : Char) :
    (c = '&' ∧ escapeChar false c = "&amp;") ∨ (c = ' ' ∧ escapeChar false c = "&nbsp;") ∨
    (c = '<' ∧ escapeChar false c = "&lt;") ∨ (c = '>' ∧ escapeChar false c = "&gt;") ∨
    (c ≠ '&' ∧ c ≠ '<' ∧ c ≠ '>' ∧ escapeChar false c = String.singleton c) := by
  unfold escapeChar
  by_cases h1 : c = '&'
  · simp [h1]
  by_cases h2 : c = ' '
  · right; left; subst h2; simp
  by_cases h3 : c = '<'
  · right; right; left; subst h3; simp
  by_cases h4 : c = '>'
  · right; right; right; left; subst h4; simp
  · right; right; right; right; simp [h1, h2, h3, h4]

theorem amp_head_split (T before after : List Char) (hT : '&' ∉ T)
    (h : '&' :: T = before ++ '&' :: after) : before = [] ∧ after = T := by
  cases before with
  | nil => simp at h; exact ⟨rfl, h.symm⟩
  | cons b bs =>
    simp at h
    exact absurd (h.2 ▸ (by simp : '&' ∈ bs ++ '&' :: after)) hT


theorem escapeString_text_no_markup (l : List Char) :
    '<' ∉ l.flatMap (fun c => (escapeChar false c).data) ∧
    '>' ∉ l.flatMap (fun c => (escapeChar false c).data) := by
  induction l with
  | nil => simp
  | cons c cs ih =>
    rcases escapeChar_text_cases c with ⟨_, h⟩ | ⟨_, h⟩ | ⟨_, h⟩ | ⟨_, h⟩ | ⟨h1, h2, h3, h⟩
    all_goals simp [List.flatMap_cons, h, ih.1, ih.2]
    · exact ⟨fun e => h2 e.symm, fun e => h3 e.symm⟩

theorem escapeString_text_ampersand (l : List Char) (before after : List Char)
    (h : l.flatMap (fun c => (escapeChar false c).data) = before ++ '&' :: after) :
    "amp;".data <+: after ∨ "lt;".data <+: after ∨ "gt;".data <+: after ∨
      "nbsp;".data <+: after := by
  induction l generalizing before with
  | nil => simp at h
  | cons c cs ih =>
    rw [List.flatMap_cons, List.append_eq_append_iff] at h
    rcases h with ⟨m, hm, hcs⟩ | ⟨m, hm, hcs⟩
    · exact ih _ hcs
    · cases m with
      | nil => simp at hcs; exact ih [] (by simpa using hcs.symm)
      | cons x xs =>
        simp at hcs
        obtain ⟨hx, hafter⟩ := hcs
        subst hx
        rcases escapeChar_text_cases c with ⟨_, h⟩ | ⟨_, h⟩ | ⟨_, h⟩ | ⟨_, h⟩ | ⟨h1, _, _, h⟩
        · rw [h] at hm
          have := amp_head_split "amp;".data before xs (by decide) hm
          left; rw [hafter, this.2]; exact List.prefix_append _ _
        · rw [h] at hm
          have := amp_head_split "nbsp;".data before xs (by decide) hm
          right; right; right; rw [hafter, this.2]; exact List.prefix_append _ _
        · rw [h] at hm
          have := amp_head_split "lt;".data before xs (by decide) hm
          right; left; rw [hafter, this.2]; exact List.prefix_append _ _
        · rw [h] at hm
          have := amp_head_split "gt;".data before xs (by decide) hm
          right; right; left; rw [hafter, this.2]; exact List.prefix_append _ _
        · rw [h] at hm
          cases before with
          | nil => simp [String.singleton] at hm; exact absurd hm.1 h1
          | cons b bs => simp [String.singleton] at hm

/-! ## Induction over trees -/

mutual
theorem node_cons_induction {P : List Node → Prop} (hnil : P [])
    (htext : ∀ d ns, P ns → P (Node.text d :: ns))
    (hcomment : ∀ d ns, P ns → P (Node.comment d :: ns))
    (helement : ∀ sp tag attrs ch ns, P ch → P ns → P (Node.element sp tag attrs ch :: ns))
    (htemplate : ∀ attrs content ns, P ns → P (Node.template attrs content :: ns)) :
    ∀ (n : Node) (ns : List Node), P ns → P (n :: ns)
  | .text d, ns, h => htext d ns h
  | .comment d, ns, h => hcomment d ns h
  | .element sp tag attrs ch, ns, h =>
      helement sp tag attrs ch ns
        (nodes_induction hnil htext hcomment helement htemplate ch) h
  | .template attrs content, ns, h => htemplate attrs content ns h
theorem nodes_induction {P : List Node → Prop} (hnil : P [])
    (htext : ∀ d ns, P ns → P (Node.text d :: ns))
    (hcomment : ∀ d ns, P ns → P (Node.comment d :: ns))
    (helement : ∀ sp tag attrs ch ns, P ch → P ns → P (Node.element sp tag attrs ch :: ns))
    (htemplate : ∀ attrs content ns, P ns → P (Node.template attrs content :: ns)) :
    ∀ ns : List Node, P ns
  | [] => hnil
  | n :: ns =>
      node_cons_induction hnil htext hcomment helement htemplate n ns
        (nodes_induction hnil htext hcomment helement htemplate ns)
end

/-! ## Equations of the tree functions -/

@[simp] theorem removeSelected_nil (p : String → Bool) : removeSelected p [] = [] := by
  simp [removeSelected]

@[simp] theorem removeSelected_text (p : String → Bool) (d : String) (ns : List Node) :
    removeSelected p (Node.text d :: ns) = Node.text d :: removeSelected p ns := by
  simp [removeSelected, removeSelectedNode]

@[simp] theorem removeSelected_comment (p : String → Bool) (d : String) (ns : List Node) :
    removeSelected p (Node.comment d :: ns) = Node.comment d :: removeSelected p ns := by
  simp [removeSelected, removeSelectedNode]

theorem removeSelected_element (p : String → Bool) (sp : Namespace) (tag : String)
    (attrs : List Attr) (ch ns : List Node) :
    removeSelected p (Node.element sp tag attrs ch :: ns) =
      if p tag then removeSelected p ns
      else Node.element sp tag attrs (removeSelected p ch) :: removeSelected p ns := by
  by_cases h : p tag <;> simp [removeSelected, removeSelectedNode, h]

theorem removeSelected_template (p : String → Bool) (attrs : List Attr)
    (content ns : List Node) :
    removeSelected p (Node.template attrs content :: ns) =
      if p "template" then removeSelected p ns
      else Node.template attrs content :: removeSelected p ns := by
  by_cases h : p "template" <;> simp [removeSelected, removeSelectedNode, h]

@[simp] theorem cleanElements_nil : cleanElements [] = [] := by simp [cleanElements]

@[simp] theorem cleanElements_text (d : String) (ns : List Node) :
    cleanElements (Node.text d :: ns) = Node.text d :: cleanElements ns := by
  simp [cleanElements, cleanElementsNode]

@[simp] theorem cleanElements_comment (d : String) (ns : List Node) :
    cleanElements (Node.comment d :: ns) = Node.comment d :: cleanElements ns := by
  simp [cleanElements, cleanElementsNode]

@[simp] theorem cleanElements_element (sp : Namespace) (tag : String) (attrs : List Attr)
    (ch ns : List Node) :
    cleanElements (Node.element sp tag attrs ch :: ns) =
      Node.element sp tag (cleanAttributes attrs) (cleanElements ch) :: cleanElements ns := by
  simp [cleanElements, cleanElementsNode]

@[simp] theorem cleanElements_template (attrs : List Attr) (content ns : List Node) :
    cleanElements (Node.template attrs content :: ns) =
      Node.template (cleanAttributes attrs) content :: cleanElements ns := by
  simp [cleanElements, cleanElementsNode]

@[simp] theorem elementsOf_nil : elementsOf [] = [] := by simp [elementsOf]

@[simp] theorem elementsOf_text (d : String) (ns : List Node) :
    elementsOf (Node.text d :: ns) = elementsOf ns := by
  simp [elementsOf, elementsOfNode]

@[simp] theorem elementsOf_comment (d : String) (ns : List Node) :
    elementsOf (Node.comment d :: ns) = elementsOf ns := by
  simp [elementsOf, elementsOfNode]

@[simp] theorem elementsOf_element (sp : Namespace) (tag : String) (attrs : List Attr)
    (ch ns : List Node) :
    elementsOf (Node.element sp tag attrs ch :: ns) =
      (tag, attrs) :: (elementsOf ch ++ elementsOf ns) := by
  simp [elementsOf, elementsOfNode]

@[simp] theorem elementsOf_template (attrs : List Attr) (content ns : List Node) :
    elementsOf (Node.template attrs content :: ns) = ("template", attrs) :: elementsOf ns := by
  simp [elementsOf, elementsOfNode]

@[simp] theorem keptElements_nil : keptElements [] = [] := by simp [keptElements]

@[simp] theorem keptElements_text (d : String) (ns : List Node) :
    keptElements (Node.text d :: ns) = keptElements ns := by
  simp [keptElements, keptElementsNode]

@[simp] theorem keptElements_comment (d : String) (ns : List Node) :
    keptElements (Node.comment d :: ns) = keptElements ns := by
  simp [keptElements, keptElementsNode]

theorem keptElements_element (sp : Namespace) (tag : String) (attrs : List Attr)
    (ch ns : List Node) :
    keptElements (Node.element sp tag attrs ch :: ns) =
      if tag ∈ dangerousTags then keptElements ns
      else (tag, attrs) :: (keptElements ch ++ keptElements ns) := by
  by_cases h : tag ∈ dangerousTags <;> simp [keptElements, keptElementsNode, h]

@[simp] theorem keptElements_template (attrs : List Attr) (content ns : List Node) :
    keptElements (Node.template attrs content :: ns) =
      ("template", attrs) :: keptElements ns := by
  simp [keptElements, keptElementsNode]

/-! ## The removal passes -/

theorem removeSelected_append (p : String → Bool) (xs ys : List Node) :
    removeSelected p (xs ++ ys) = removeSelected p xs ++ removeSelected p ys := by
  induction xs using nodes_induction with
  | hnil => simp
  | htext d ns ih => simp [ih]
  | hcomment d ns ih => simp [ih]
  | helement sp tag attrs ch ns _ ih =>
    simp only [List.cons_append, removeSelected_element, ih]
    split <;> simp
  | htemplate attrs content ns ih =>
    simp only [List.cons_append, removeSelected_template, ih]
    split <;> simp

theorem removeSelected_twice (p q : String → Bool) (t : List Node) :
    removeSelected q (removeSelected p t) = removeSelected (fun name => p name || q name) t := by
  induction t using nodes_induction with
  | hnil => simp
  | htext d ns ih => simp [ih]
  | hcomment d ns ih => simp [ih]
  | helement sp tag attrs ch ns ihc ih =>
    by_cases hp : p tag
    · simp [removeSelected_element, hp, ih]
    · by_cases hq : q tag <;> simp [removeSelected_element, hp, hq, ih, ihc]
  | htemplate attrs content ns ih =>
    by_cases hp : p "template"
    · simp [removeSelected_template, hp, ih]
    · by_cases hq : q "template" <;> simp [removeSelected_template, hp, hq, ih]

theorem removeDangerousElements_eq (t : List Node) :
    removeDangerousElements t = removeSelected (fun name => decide (name ∈ dangerousTags)) t := by
  simp only [removeDangerousElements, dangerousTags, List.foldl_cons, List.foldl_nil,
    removeSelected_twice]
  congr 1
  funext name
  have hbeq : ∀ a b : String, (a == b) = decide (a = b) := fun a b => by
    by_cases h : a = b <;> simp [h]
  simp [Bool.or_assoc, hbeq]

theorem removeDangerousElements_nil : removeDangerousElements [] = [] := by
  simp [removeDangerousElements_eq]

theorem elementsOf_append (xs ys : List Node) :
    elementsOf (xs ++ ys) = elementsOf xs ++ elementsOf ys := by
  induction xs using nodes_induction with
  | hnil => simp
  | htext d ns ih => simp [ih]
  | hcomment d ns ih => simp [ih]
  | helement sp tag attrs ch ns _ ih => simp [ih]
  | htemplate attrs content ns ih => simp [ih]

theorem cleanElements_append (xs ys : List Node) :
    cleanElements (xs ++ ys) = cleanElements xs ++ cleanElements ys := by
  induction xs using nodes_induction with
  | hnil => simp
  | htext d ns ih => simp [ih]
  | hcomment d ns ih => simp [ih]
  | helement sp tag attrs ch ns _ ih => simp [ih]
  | htemplate attrs content ns ih => simp [ih]

theorem elementsOf_removeDangerous (t : List Node) :
    elementsOf (removeDangerousElements t) = keptElements t := by
  rw [removeDangerousElements_eq]
  induction t using nodes_induction with
  | hnil => simp
  | htext d ns ih => simp [ih]
  | hcomment d ns ih => simp [ih]
  | helement sp tag attrs ch ns ihc ih =>
    by_cases h : tag ∈ dangerousTags
    · simp [removeSelected_element, keptElements_element, h, ih]
    · simp [removeSelected_element, keptElements_element, h, ih, ihc]
  | htemplate attrs content ns ih =>
    have h : "template" ∉ dangerousTags := by decide
    simp [removeSelected_template, h, ih]

theorem elementsOf_cleanElements (t : List Node) :
    elementsOf (cleanElements t) =
      (elementsOf t).map (fun e => (e.1, cleanAttributes e.2)) := by
  induction t using nodes_induction with
  | hnil => simp
  | htext d ns ih => simp [ih]
  | hcomment d ns ih => simp [ih]
  | helement sp tag attrs ch ns ihc ih => simp [ih, ihc]
  | htemplate attrs content ns ih => simp [ih]

theorem elementsOf_sanitizeTree (t : List Node) :
    elementsOf (sanitizeTree t) =
      (keptElements t).map (fun e => (e.1, cleanAttributes e.2)) := by
  simp [sanitizeTree, elementsOf_cleanElements, elementsOf_removeDangerous]

theorem keptElements_not_dangerous (t : List Node) :
    ∀ e ∈ keptElements t, e.1 ∉ dangerousTags := by
  induction t using nodes_induction with
  | hnil => simp
  | htext d ns ih => simpa using ih
  | hcomment d ns ih => simpa using ih
  | helement sp tag attrs ch ns ihc ih =>
    by_cases h : tag ∈ dangerousTags
    · simpa [keptElements_element, h] using ih
    · intro e he
      simp only [keptElements_element, h, if_false, List.mem_cons, List.mem_append] at he
      rcases he with rfl | he | he
      · exact h
      · exact ihc e he
      · exact ih e he
  | htemplate attrs content ns ih =>
    intro e he
    simp only [keptElements_template, List.mem_cons] at he
    rcases he with rfl | he
    · show "template" ∉ dangerousTags
      decide
    · exact ih e he

theorem keptElements_sublist (t : List Node) : ∀ e ∈ keptElements t, e ∈ elementsOf t := by
  induction t using nodes_induction with
  | hnil => simp
  | htext d ns ih => simpa using ih
  | hcomment d ns ih => simpa using ih
  | helement sp tag attrs ch ns ihc ih =>
    intro e he
    by_cases h : tag ∈ dangerousTags
    · simp only [keptElements_element, h, if_true] at he
      simp [ih e he]
    · simp only [keptElements_element, h, if_false, List.mem_cons, List.mem_append] at he
      rcases he with rfl | he | he
      · simp
      · simp [ihc e he]
      · simp [ih e he]
  | htemplate attrs content ns ih =>
    intro e he
    simp only [keptElements_template, List.mem_cons] at he
    rcases he with rfl | he
    · simp
    · simp [ih e he]

/-! ## Attribute cleaning -/

theorem removeAttribute_eq_filter (name : String) (attrs : List Attr)
    (hd : (attrs.map Attr.name).Nodup) :
    removeAttribute name attrs = attrs.filter (fun a => a.name != name) := by
  induction attrs with
  | nil => simp [removeAttribute]
  | cons a as ih =>
    simp only [List.map_cons, List.nodup_cons] at hd
    by_cases h : a.name = name
    · have hall : ∀ b ∈ as, (b.name != name) = true := by
        intro b hb
        have : b.name ≠ a.name := fun e => hd.1 (e ▸ List.mem_map_of_mem Attr.name hb)
        simpa [h] using this
      simp [removeAttribute, List.eraseP_cons, h, List.filter_eq_self.mpr hall]
    · have ih' := ih hd.2
      simp only [removeAttribute] at ih'
      simp [removeAttribute, List.eraseP_cons, h, ih']

theorem nodup_names_filter (p : Attr → Bool) (attrs : List Attr)
    (hd : (attrs.map Attr.name).Nodup) : ((attrs.filter p).map Attr.name).Nodup :=
  (List.filter_sublist attrs).map Attr.name |>.nodup hd

theorem foldl_remove_eq_filter (snapshot live : List Attr)
    (hd : (live.map Attr.name).Nodup) :
    snapshot.foldl
        (fun live attr =>
          if isDangerousAttribute attr then removeAttribute attr.name live else live) live =
      live.filter
        (fun a => !(snapshot.any (fun b => isDangerousAttribute b && b.name == a.name))) := by
  induction snapshot generalizing live with
  | nil => simp
  | cons b bs ih =>
    simp only [List.foldl_cons]
    by_cases hb : isDangerousAttribute b = true
    · simp only [hb, if_true]
      rw [removeAttribute_eq_filter _ _ hd, ih _ (nodup_names_filter _ _ hd), List.filter_filter]
      apply List.filter_congr
      intro a _
      by_cases hn : b.name = a.name
      · simp [hb, hn]
      · have e1 : (a.name != b.name) = true := by
          simpa using fun e : a.name = b.name => hn e.symm
        have e2 : (b.name == a.name) = false := by simpa using hn
        simp [hb, e1, e2]
    · have hb' : isDangerousAttribute b = false := by simpa using hb
      simp only [hb', Bool.false_eq_true, if_false]
      rw [ih _ hd]
      apply List.filter_congr
      intro a _
      simp [hb']

theorem cleanAttributes_eq_filter (attrs : List Attr) (hd : (attrs.map Attr.name).Nodup) :
    cleanAttributes attrs = attrs.filter (fun a => !isDangerousAttribute a) := by
  unfold cleanAttributes
  rw [foldl_remove_eq_filter attrs attrs hd]
  apply List.filter_congr
  intro a ha
  congr 1
  by_cases hdang : isDangerousAttribute a = true
  · simp only [hdang, List.any_eq_true]
    exact ⟨a, ha, by simp [hdang]⟩
  · have hfalse : isDangerousAttribute a = false := by simpa using hdang
    rw [hfalse, List.any_eq_false]
    intro b hb hcontra
    simp only [Bool.and_eq_true, beq_iff_eq] at hcontra
    have hab : b = a := List.inj_on_of_nodup_map hd hb ha hcontra.2
    rw [hab] at hcontra
    exact hdang hcontra.1

theorem foldl_remove_of_safe (snapshot live : List Attr)
    (hs : ∀ b ∈ snapshot, isDangerousAttribute b = false) :
    snapshot.foldl
        (fun live attr =>
          if isDangerousAttribute attr then removeAttribute attr.name live else live) live =
      live := by
  induction snapshot generalizing live with
  | nil => simp
  | cons b bs ih =>
    have hb : isDangerousAttribute b = false := hs b (by simp)
    simp only [List.foldl_cons, hb]
    exact ih live (fun c hc => hs c (by simp [hc]))

theorem cleanAttributes_of_safe (attrs : List Attr)
    (hs : ∀ b ∈ attrs, isDangerousAttribute b = false) : cleanAttributes attrs = attrs :=
  foldl_remove_of_safe attrs attrs hs

/-! ## Lower-casing and the `javascript:` comparison -/

theorem prefix_lower_iff (T : List Char) (hT : lowerSafe T = true) (v : List Char) :
    T <+: v.flatMap lowerChar ↔ T <+: v.map Char.toLower := by
  induction T generalizing v with
  | nil => simp
  | cons t rest ih =>
    simp only [lowerSafe, Bool.and_eq_true, bne_iff_ne, ne_eq, Bool.or_eq_true] at hT
    obtain ⟨⟨⟨⟨hk, hK⟩, hI⟩, hi⟩, hrest⟩ := hT
    cases v with
    | nil => simp
    | cons c cs =>
      simp only [List.flatMap_cons, List.map_cons]
      by_cases hcK : c = '\u212a'
      · subst hcK
        have h1 : Char.toLower '\u212a' = '\u212a' := by decide
        simp only [lowerChar, if_true, h1, List.cons_append, List.nil_append,
          List.cons_prefix_cons]
        constructor
        · intro h; exact absurd h.1 hk
        · intro h; exact absurd h.1 hK
      by_cases hcI : c = '\u0130'
      · subst hcI
        have h1 : Char.toLower '\u0130' = '\u0130' := by decide
        have h2 : ('\u0130' : Char) ≠ '\u212a' := by decide
        simp only [lowerChar, h2, if_false, if_true, h1, List.cons_append, List.nil_append,
          List.cons_prefix_cons]
        constructor
        · rintro ⟨ht, hp⟩
          rcases hi with hi | hi
          · exact absurd ht hi
          · cases rest with
            | nil => simp at hi
            | cons x xs =>
              simp only [List.cons_prefix_cons] at hp
              simp only [bne_iff_ne, ne_eq] at hi
              exact absurd hp.1 hi
        · intro h; exact absurd h.1 hI
      · simp only [lowerChar, hcK, hcI, if_false, List.cons_append, List.nil_append,
          List.cons_prefix_cons, ih hrest cs]

theorem startsWith_toLowerCase (value : String) :
    startsWith (toLowerCase value) "javascript:" =
      startsWith (asciiLowerCase value) "javascript:" := by
  have h := prefix_lower_iff "javascript:".data (by decide) value.data
  simp only [startsWith, toLowerCase, asciiLowerCase]
  rw [Bool.eq_iff_iff, List.isPrefixOf_iff_prefix, List.isPrefixOf_iff_prefix]
  exact h

theorem beginsWithOn_of_startsWith (name : String) (h : startsWith name "on" = true) :
    beginsWithOn name = true := by
  simp only [beginsWithOn, startsWith, asciiLowerCase, List.isPrefixOf_iff_prefix] at h ⊢
  obtain ⟨rest, hrest⟩ := h
  rw [← hrest]
  exact ⟨rest.map Char.toLower, by simp⟩

theorem isDangerousAttribute_iff (a : Attr)
    (hlow : beginsWithOn a.name = true → asciiLowerCase a.name = a.name) :
    isDangerousAttribute a = (beginsWithOn a.name || isJavascriptUrl a) := by
  have hon : startsWith a.name "on" = beginsWithOn a.name := by
    by_cases hb : beginsWithOn a.name = true
    · have := hlow hb
      rw [beginsWithOn, this] at hb
      rw [hb, beginsWithOn, this, hb]
    · have hb' : beginsWithOn a.name = false := by simpa using hb
      rw [hb']
      by_contra hc
      exact hb (beginsWithOn_of_startsWith _ (by simpa using hc))
  simp only [isDangerousAttribute, isJavascriptUrl, hon, startsWith_toLowerCase]
  cases beginsWithOn a.name <;> cases (a.name == "href") <;> cases (a.name == "src") <;> simp

/-! ## Equations of `sanitizeTree` -/

theorem sanitizeTree_nil : sanitizeTree [] = [] := by
  simp [sanitizeTree, removeDangerousElements_eq]

theorem sanitizeTree_append (xs ys : List Node) :
    sanitizeTree (xs ++ ys) = sanitizeTree xs ++ sanitizeTree ys := by
  simp [sanitizeTree, removeDangerousElements_eq, removeSelected_append, cleanElements_append]

theorem sanitizeTree_text (d : String) (ns : List Node) :
    sanitizeTree (Node.text d :: ns) = Node.text d :: sanitizeTree ns := by
  simp [sanitizeTree, removeDangerousElements_eq]

theorem sanitizeTree_comment (d : String) (ns : List Node) :
    sanitizeTree (Node.comment d :: ns) = Node.comment d :: sanitizeTree ns := by
  simp [sanitizeTree, removeDangerousElements_eq]

theorem sanitizeTree_removed (sp : Namespace) (tag : String) (attrs : List Attr)
    (ch ns : List Node)
    (h : tag ∈ dangerousTags) :
    sanitizeTree (Node.element sp tag attrs ch :: ns) = sanitizeTree ns := by
  simp [sanitizeTree, removeDangerousElements_eq, removeSelected_element, h]

theorem sanitizeTree_kept (sp : Namespace) (tag : String) (attrs : List Attr)
    (ch ns : List Node)
    (h : tag ∉ dangerousTags) :
    sanitizeTree (Node.element sp tag attrs ch :: ns) =
      Node.element sp tag (cleanAttributes attrs) (sanitizeTree ch) :: sanitizeTree ns := by
  simp [sanitizeTree, removeDangerousElements_eq, removeSelected_element, h]

theorem sanitizeTree_template (attrs : List Attr) (content ns : List Node) :
    sanitizeTree (Node.template attrs content :: ns) =
      Node.template (cleanAttributes attrs) content :: sanitizeTree ns := by
  have h : "template" ∉ dangerousTags := by decide
  simp [sanitizeTree, removeDangerousElements_eq, removeSelected_template, h]

theorem distinct_cons_template (attrs : List Attr) (content ns : List Node) :
    DistinctAttrNames (Node.template attrs content :: ns) ↔
      (attrs.map Attr.name).Nodup ∧ DistinctAttrNames ns := by
  simp only [DistinctAttrNames, elementsOf_template, List.mem_cons]
  constructor
  · intro h
    exact ⟨h ("template", attrs) (Or.inl rfl), fun e he => h e (Or.inr he)⟩
  · rintro ⟨h1, h2⟩ e (rfl | he)
    · exact h1
    · exact h2 e he

theorem lowerCase_cons_template (attrs : List Attr) (content ns : List Node) :
    HandlerNamesLowerCase (Node.template attrs content :: ns) ↔
      (∀ a ∈ attrs, beginsWithOn a.name = true → asciiLowerCase a.name = a.name) ∧
        HandlerNamesLowerCase ns := by
  simp only [HandlerNamesLowerCase, elementsOf_template, List.mem_cons]
  constructor
  · intro h
    exact ⟨h ("template", attrs) (Or.inl rfl), fun e he => h e (Or.inr he)⟩
  · rintro ⟨h1, h2⟩ e (rfl | he)
    · exact h1
    · exact h2 e he

theorem distinct_cons_element (sp : Namespace) (tag : String) (attrs : List Attr)
    (ch ns : List Node) :
    DistinctAttrNames (Node.element sp tag attrs ch :: ns) ↔
      (attrs.map Attr.name).Nodup ∧ DistinctAttrNames ch ∧ DistinctAttrNames ns := by
  simp only [DistinctAttrNames, elementsOf_element, List.mem_cons, List.mem_append]
  constructor
  · intro h
    exact ⟨h (tag, attrs) (Or.inl rfl), fun e he => h e (Or.inr (Or.inl he)),
      fun e he => h e (Or.inr (Or.inr he))⟩
  · rintro ⟨h1, h2, h3⟩ e (rfl | he | he)
    · exact h1
    · exact h2 e he
    · exact h3 e he

theorem lowerCase_cons_element (sp : Namespace) (tag : String) (attrs : List Attr)
    (ch ns : List Node) :
    HandlerNamesLowerCase (Node.element sp tag attrs ch :: ns) ↔
      (∀ a ∈ attrs, beginsWithOn a.name = true → asciiLowerCase a.name = a.name) ∧
        HandlerNamesLowerCase ch ∧ HandlerNamesLowerCase ns := by
  simp only [HandlerNamesLowerCase, elementsOf_element, List.mem_cons, List.mem_append]
  constructor
  · intro h
    exact ⟨h (tag, attrs) (Or.inl rfl), fun e he => h e (Or.inr (Or.inl he)),
      fun e he => h e (Or.inr (Or.inr he))⟩
  · rintro ⟨h1, h2, h3⟩ e (rfl | he | he)
    · exact h1
    · exact h2 e he
    · exact h3 e he

theorem cleanAttributes_idem (attrs : List Attr) (hd : (attrs.map Attr.name).Nodup) :
    cleanAttributes (cleanAttributes attrs) = cleanAttributes attrs := by
  rw [cleanAttributes_eq_filter attrs hd,
    cleanAttributes_eq_filter _ (nodup_names_filter _ _ hd), List.filter_filter]
  apply List.filter_congr
  intro a _
  simp

theorem sanitizeTree_idem (t : List Node) (hd : DistinctAttrNames t) :
    sanitizeTree (sanitizeTree t) = sanitizeTree t := by
  induction t using nodes_induction with
  | hnil => simp [sanitizeTree_nil]
  | htext d ns ih =>
    have hns : DistinctAttrNames ns := by simpa [DistinctAttrNames] using hd
    simp [sanitizeTree_text, ih hns]
  | hcomment d ns ih =>
    have hns : DistinctAttrNames ns := by simpa [DistinctAttrNames] using hd
    simp [sanitizeTree_comment, ih hns]
  | helement sp tag attrs ch ns ihc ih =>
    obtain ⟨h1, h2, h3⟩ := (distinct_cons_element sp tag attrs ch ns).mp hd
    by_cases h : tag ∈ dangerousTags
    · rw [sanitizeTree_removed _ _ _ _ _ h, ih h3]
    · rw [sanitizeTree_kept _ _ _ _ _ h, sanitizeTree_kept _ _ _ _ _ h, ihc h2, ih h3,
        cleanAttributes_idem attrs h1]
  | htemplate attrs content ns ih =>
    obtain ⟨h1, h2⟩ := (distinct_cons_template attrs content ns).mp hd
    rw [sanitizeTree_template, sanitizeTree_template, ih h2, cleanAttributes_idem attrs h1]

theorem sanitizeTree_eq_expected (t : List Node) (hd : DistinctAttrNames t)
    (hl : HandlerNamesLowerCase t) : sanitizeTree t = expectedTree t := by
  induction t using nodes_induction with
  | hnil => simp [sanitizeTree_nil, expectedTree]
  | htext d ns ih =>
    have hns : DistinctAttrNames ns := by simpa [DistinctAttrNames] using hd
    have hls : HandlerNamesLowerCase ns := by simpa [HandlerNamesLowerCase] using hl
    simp [sanitizeTree_text, expectedTree, expectedNode, ih hns hls]
  | hcomment d ns ih =>
    have hns : DistinctAttrNames ns := by simpa [DistinctAttrNames] using hd
    have hls : HandlerNamesLowerCase ns := by simpa [HandlerNamesLowerCase] using hl
    simp [sanitizeTree_comment, expectedTree, expectedNode, ih hns hls]
  | helement sp tag attrs ch ns ihc ih =>
    obtain ⟨h1, h2, h3⟩ := (distinct_cons_element sp tag attrs ch ns).mp hd
    obtain ⟨l1, l2, l3⟩ := (lowerCase_cons_element sp tag attrs ch ns).mp hl
    by_cases h : tag ∈ dangerousTags
    · rw [sanitizeTree_removed _ _ _ _ _ h, ih h3 l3]
      simp [expectedTree, expectedNode, h]
    · rw [sanitizeTree_kept _ _ _ _ _ h, ih h3 l3, ihc h2 l2, cleanAttributes_eq_filter attrs h1]
      have hf : attrs.filter (fun a => !isDangerousAttribute a) =
          attrs.filter (fun a => !(beginsWithOn a.name || isJavascriptUrl a)) := by
        apply List.filter_congr
        intro a ha
        rw [isDangerousAttribute_iff a (l1 a ha)]
      simp [expectedTree, expectedNode, h, hf]
  | htemplate attrs content ns ih =>
    obtain ⟨h1, h2⟩ := (distinct_cons_template attrs content ns).mp hd
    obtain ⟨l1, l2⟩ := (lowerCase_cons_template attrs content ns).mp hl
    rw [sanitizeTree_template, ih h2 l2, cleanAttributes_eq_filter attrs h1]
    have hf : attrs.filter (fun a => !isDangerousAttribute a) =
        attrs.filter (fun a => !(beginsWithOn a.name || isJavascriptUrl a)) := by
      apply List.filter_congr
      intro a ha
      rw [isDangerousAttribute_iff a (l1 a ha)]
    simp [expectedTree, expectedNode, hf]

theorem sanitizeTree_of_harmless (t : List Node)
    (hs : ∀ e ∈ elementsOf t,
      e.1 ∉ dangerousTags ∧ ∀ a ∈ e.2, isDangerousAttribute a = false) :
    sanitizeTree t = t := by
  induction t using nodes_induction with
  | hnil => simp [sanitizeTree_nil]
  | htext d ns ih => simp [sanitizeTree_text, ih (by simpa using hs)]
  | hcomment d ns ih => simp [sanitizeTree_comment, ih (by simpa using hs)]
  | helement sp tag attrs ch ns ihc ih =>
    simp only [elementsOf_element, List.mem_cons, List.mem_append] at hs
    have h0 := hs (tag, attrs) (Or.inl rfl)
    rw [sanitizeTree_kept _ _ _ _ _ h0.1, cleanAttributes_of_safe attrs h0.2,
      ihc (fun e he => hs e (Or.inr (Or.inl he))), ih (fun e he => hs e (Or.inr (Or.inr he)))]
  | htemplate attrs content ns ih =>
    simp only [elementsOf_template, List.mem_cons] at hs
    have h0 := hs ("template", attrs) (Or.inl rfl)
    rw [sanitizeTree_template, cleanAttributes_of_safe attrs h0.2,
      ih (fun e he => hs e (Or.inr he))]

theorem isDangerousAttribute_of_harmless (a : Attr) (h1 : beginsWithOn a.name = false)
    (h2 : isJavascriptUrl a = false) : isDangerousAttribute a = false := by
  rw [isDangerousAttribute_iff a (by simp [h1]), h1, h2]
  rfl

/-! ## The claims about `escapeHtml` -/

/-- C2, counterexample: U+00A0 is none of the five characters `&`, `<`, `>`, `"`, `'`, and
`escapeHtml` does not leave it unchanged: it comes back as `&nbsp;`; and the two quote
characters are not replaced at all. -/
theorem escapeHtml_rewrites_no_break_space :
    escapeHtml "5\u00a0kg" = "5&nbsp;kg" ∧
      '\u00a0' ∉ ['&', '<', '>', Char.ofNat 34, Char.ofNat 39] ∧
      escapeHtml "say \"hi\"" = "say \"hi\"" ∧
      escapeHtml (String.singleton (Char.ofNat 39)) = String.singleton (Char.ofNat 39) := by
  decide

/-- C2, amended: for every string `s`, `escapeHtml s` is `s` with each `&`, `<`, `>`
replaced by `&amp;`, `&lt;`, `&gt;` and each U+00A0 by `&nbsp;`, every character other
than these four and the two quote characters left unchanged; hence the output contains
no raw `<` or `>`, and every `&` in it starts one of these four references. -/
theorem escapeHtml_replaces_markup_characters :
    ∃ ref : Char → String,
      ref '&' = "&amp;" ∧ ref '<' = "&lt;" ∧ ref '>' = "&gt;" ∧ ref '\u00a0' = "&nbsp;" ∧
      (∀ c, c ∉ ['&', '<', '>', '\u00a0', Char.ofNat 34, Char.ofNat 39] →
        ref c = String.singleton c) ∧
      ∀ s : String,
        escapeHtml s = String.join (s.data.map ref) ∧
        '<' ∉ (escapeHtml s).data ∧ '>' ∉ (escapeHtml s).data ∧
        ∀ before after : List Char, (escapeHtml s).data = before ++ '&' :: after →
          "amp;".data <+: after ∨ "lt;".data <+: after ∨ "gt;".data <+: after ∨
            "nbsp;".data <+: after := by
  refine ⟨escapeChar false, by decide, by decide, by decide, by decide, ?_, ?_⟩
  · intro c hc
    simp only [List.mem_cons, List.mem_singleton, not_or, List.not_mem_nil, or_false] at hc
    simp [escapeChar, hc.1, hc.2.1, hc.2.2.1, hc.2.2.2.1]
  · intro s
    rw [escapeHtml_eq]
    refine ⟨rfl, ?_, ?_, ?_⟩
    · rw [escapeString_data]; exact (escapeString_text_no_markup s.data).1
    · rw [escapeString_data]; exact (escapeString_text_no_markup s.data).2
    · intro before after h
      rw [escapeString_data] at h
      exact escapeString_text_ampersand s.data before after h

/-! ## The claims about `sanitizeHtml` -/

/-- C1, at the failing input: for `<template><script>alert(1)</script></template>` the
parser puts the script into the template's contents, which neither of the two
`querySelectorAll` loops visits and which `innerHTML` serialises, so `sanitizeHtml`
returns the fragment with the script element intact.  The same script outside a template
is removed, and in general no denylisted element remains among the elements reached
through child lists. -/
theorem sanitizeHtml_keeps_script_in_template :
    sampleParse "<template><script>alert(1)</script></template>" =
      [Node.template [] [Node.element .html "script" [] [Node.text "alert(1)"]]] ∧
    sanitizeHtml sampleParse "<template><script>alert(1)</script></template>" =
      "<template><script>alert(1)</script></template>" ∧
    sanitizeHtml sampleParse "<script>alert(1)</script>" = "" ∧
    ∀ nodes : List Node, ∀ e ∈ elementsOf (sanitizeTree nodes), e.1 ∉ dangerousTags := by
  refine ⟨by rfl, by decide, by decide, ?_⟩
  intro nodes e he
  rw [elementsOf_sanitizeTree] at he
  obtain ⟨e0, he0, rfl⟩ := List.mem_map.mp he
  exact keptElements_not_dangerous _ e0 he0

/-- C3, at the failing input: for `<template><img src=x onerror="alert(1)"></template>`
the image sits in the template's contents, which `querySelectorAll("*")` does not visit,
so `sanitizeHtml` returns it with `onerror` in place.  The same image outside a template
loses `onerror` and keeps `src`. -/
theorem sanitizeHtml_keeps_handler_in_template :
    sampleParse "<template><img src=x onerror=\"alert(1)\"></template>" =
      [Node.template []
        [Node.element .html "img" [⟨"src", "x"⟩, ⟨"onerror", "alert(1)"⟩] []]] ∧
    sanitizeHtml sampleParse "<template><img src=x onerror=\"alert(1)\"></template>" =
      "<template><img src=\"x\" onerror=\"alert(1)\"></template>" ∧
    sanitizeHtml sampleParse "<img src=x onerror=\"alert(1)\">" = "<img src=\"x\">" := by
  refine ⟨by rfl, by decide, by decide⟩

/-- C4, at the failing input: for `<template><a href="javascript:alert(1)">x</a></template>`
the link sits in the template's contents, which `querySelectorAll("*")` does not visit,
so `sanitizeHtml` returns it with the `javascript:` `href` in place.  The same link
outside a template loses the `href` and stays, and
`<img src="javascript:alert(1)" onerror="alert(2)">` comes back as `<img>`. -/
theorem sanitizeHtml_keeps_javascript_url_in_template :
    sampleParse "<template><a href=\"javascript:alert(1)\">x</a></template>" =
      [Node.template []
        [Node.element .html "a" [⟨"href", "javascript:alert(1)"⟩] [Node.text "x"]]] ∧
    sanitizeHtml sampleParse "<template><a href=\"javascript:alert(1)\">x</a></template>" =
      "<template><a href=\"javascript:alert(1)\">x</a></template>" ∧
    sanitizeHtml sampleParse "<a href=\"javascript:alert(1)\">x</a>" = "<a>x</a>" ∧
    sanitizeHtml sampleParse "<img src=\"javascript:alert(1)\" onerror=\"alert(2)\">" =
      "<img>" := by
  refine ⟨by rfl, by decide, by decide, by decide⟩

/-- C5, counterexample: the value ` javascript:alert(1)` begins with `javascript:` once
trimmed and lower-cased, and `sanitizeHtml` leaves the `href` that carries it in place. -/
theorem sanitizeHtml_keeps_padded_javascript_url :
    startsWith (toLowerCase (trim " javascript:alert(1)")) "javascript:" = true ∧
      sanitizeTree [Node.element .html "a" [⟨"href", " javascript:alert(1)"⟩] [Node.text "x"]] =
        [Node.element .html "a" [⟨"href", " javascript:alert(1)"⟩] [Node.text "x"]] :=
  ⟨by decide, by rfl⟩

/-- C5, amended: in a parsed tree (attribute names distinct on each element), every
element reached through child lists that is neither denylisted nor inside a denylisted
element stays, and an `href` or `src` attribute of such an element is removed exactly
when its value, lower-cased and not trimmed, begins with `javascript:`; a value with
leading white space such as ` javascript:alert(1)` does not, and stays.  Nothing is said
about elements inside the contents of a template. -/
theorem sanitizeHtml_javascript_check_untrimmed (nodes : List Node)
    (hdistinct : DistinctAttrNames nodes) :
    elementsOf (sanitizeTree nodes) =
      (keptElements nodes).map (fun e => (e.1, cleanAttributes e.2)) ∧
    (∀ e ∈ keptElements nodes, ∀ a ∈ e.2, a.name = "href" ∨ a.name = "src" →
      (a ∈ cleanAttributes e.2 ↔ startsWith (toLowerCase a.value) "javascript:" = false)) ∧
    startsWith (toLowerCase " javascript:alert(1)") "javascript:" = false := by
  refine ⟨elementsOf_sanitizeTree nodes, ?_, by decide⟩
  intro e he a ha hname
  rw [cleanAttributes_eq_filter e.2 (hdistinct e (keptElements_sublist nodes e he)),
    List.mem_filter]
  have hd : isDangerousAttribute a = startsWith (toLowerCase a.value) "javascript:" := by
    rcases hname with h | h
    · have h1 : startsWith "href" "on" = false := by decide
      have h2 : ("href" == "src") = false := by decide
      simp [isDangerousAttribute, h, h1, h2]
    · have h1 : startsWith "src" "on" = false := by decide
      have h2 : ("src" == "href") = false := by decide
      simp [isDangerousAttribute, h, h1, h2]
  rw [hd]
  constructor
  · intro h; simpa using h.2
  · intro h; exact ⟨ha, by simp [h]⟩

/-- C5, witness: of two links, the one with `javascript:` loses its `href`, the one with
a leading space keeps it; the template after them is a kept element, and the link in
its contents is not among the elements the statement speaks of. -/
theorem sanitizeHtml_javascript_check_untrimmed_witness :
    DistinctAttrNames
        [Node.element .html "a" [⟨"href", "javascript:alert(1)"⟩] [],
         Node.element .html "a" [⟨"href", " javascript:alert(1)"⟩] [],
         Node.template [] [Node.element .html "a" [⟨"href", "javascript:alert(1)"⟩] []]] ∧
      elementsOf (sanitizeTree
        [Node.element .html "a" [⟨"href", "javascript:alert(1)"⟩] [],
         Node.element .html "a" [⟨"href", " javascript:alert(1)"⟩] [],
         Node.template [] [Node.element .html "a" [⟨"href", "javascript:alert(1)"⟩] []]]) =
        [("a", []), ("a", [⟨"href", " javascript:alert(1)"⟩]), ("template", [])] :=
  ⟨by unfold DistinctAttrNames; decide,
   (sanitizeHtml_javascript_check_untrimmed _ (by unfold DistinctAttrNames; decide)).1.trans
     (by decide)⟩

theorem serializeNodes_no_markup (t : List Node)
    (h : '<' ∉ (serializeNodes false t).data) :
    ∃ l : List Char,
      (serializeNodes false t).data = l.flatMap (fun c => (escapeChar false c).data) := by
  induction t with
  | nil => exact ⟨[], by simp [serializeNodes]⟩
  | cons n ns ih =>
    cases n with
    | text d =>
      simp only [serializeNodes, serializeNode, String.data_append, List.mem_append,
        not_or, Bool.false_eq_true, if_false] at h ⊢
      obtain ⟨l, hl⟩ := ih h.2
      exact ⟨d.data ++ l, by rw [hl, escapeString_data, List.flatMap_append]⟩
    | comment d =>
      exfalso; apply h
      simp [serializeNodes, serializeNode, String.data_append]
    | element sp tag attrs ch =>
      exfalso; apply h
      simp [serializeNodes, serializeNode, String.data_append]
    | template attrs content =>
      exfalso; apply h
      simp [serializeNodes, serializeNode, String.data_append]

theorem serializeNodes_ne_fish (t : List Node) :
    serializeNodes false t ≠ "Fish & Chips" := by
  intro h
  obtain ⟨l, hl⟩ := serializeNodes_no_markup t (by rw [h]; decide)
  rw [h] at hl
  have := escapeString_text_ampersand l "Fish ".data " Chips".data hl.symm
  revert this
  decide

/-- C6, counterexample: the fragment `Fish & Chips` holds none of the constructs the
sanitiser removes (it parses to one text node), and it does not come back verbatim: the
tree is serialised again, which gives `Fish &amp; Chips`; no parser makes the output
equal to the input. -/
theorem sanitizeHtml_reserializes_harmless_fragment :
    Harmless [Node.text "Fish & Chips"] ∧
      sanitizeHtml (fun _ => [Node.text "Fish & Chips"]) "Fish & Chips" = "Fish &amp; Chips" ∧
      ¬ ∃ parseFragment : String → List Node,
          sanitizeHtml parseFragment "Fish & Chips" = "Fish & Chips" :=
  ⟨by unfold Harmless; decide, by decide,
   fun ⟨parseFragment, h⟩ => serializeNodes_ne_fish _ h⟩

/-- C6, amended: in a parsed tree, `sanitizeHtml` changes nothing other than removing
denylisted elements (with their subtrees), attributes whose name begins with `on` and
`javascript:` `href` / `src` attributes: its tree is the one the specification's single
walk gives, siblings are treated independently of each other, and a tree with none of
these constructs is left as it is, so that the output is the serialisation of the parsed
input, which need not be the input string; for the tree of `<p>Hello <b>World</b></p>`
that serialisation is `<p>Hello <b>World</b></p>`. -/
theorem sanitizeHtml_preserves_everything_else (nodes : List Node)
    (hdistinct : DistinctAttrNames nodes) (hlower : HandlerNamesLowerCase nodes) :
    sanitizeTree nodes = expectedTree nodes ∧
    (∀ xs ys : List Node, sanitizeTree (xs ++ ys) = sanitizeTree xs ++ sanitizeTree ys) ∧
    (Harmless nodes →
      sanitizeTree nodes = nodes ∧
        serializeNodes false (sanitizeTree nodes) = serializeNodes false nodes) ∧
    serializeNodes false
        (sanitizeTree
          [Node.element .html "p" [] [Node.text "Hello ", Node.element .html "b" [] [Node.text "World"]]]) =
      "<p>Hello <b>World</b></p>" := by
  refine ⟨sanitizeTree_eq_expected nodes hdistinct hlower, sanitizeTree_append, ?_, by decide⟩
  intro hh
  have : sanitizeTree nodes = nodes :=
    sanitizeTree_of_harmless nodes (fun e he =>
      ⟨(hh e he).1, fun a ha =>
        isDangerousAttribute_of_harmless a ((hh e he).2 a ha).1 ((hh e he).2 a ha).2⟩)
  exact ⟨this, by rw [this]⟩

/-- C6, witness: a paragraph with a script, an event handler and safe siblings. -/
theorem sanitizeHtml_preserves_everything_else_witness :
    DistinctAttrNames
        [Node.element .html "p" [⟨"class", "c"⟩, ⟨"onclick", "f()"⟩]
          [Node.text "a", Node.element .html "script" [] [Node.text "f()"], Node.comment "c",
           Node.element .html "b" [] [Node.text "b"]]] ∧
      sanitizeTree
        [Node.element .html "p" [⟨"class", "c"⟩, ⟨"onclick", "f()"⟩]
          [Node.text "a", Node.element .html "script" [] [Node.text "f()"], Node.comment "c",
           Node.element .html "b" [] [Node.text "b"]]] =
        [Node.element .html "p" [⟨"class", "c"⟩]
          [Node.text "a", Node.comment "c", Node.element .html "b" [] [Node.text "b"]]] :=
  ⟨by unfold DistinctAttrNames; decide,
   (sanitizeHtml_preserves_everything_else _ (by unfold DistinctAttrNames; decide)
      (by unfold HandlerNamesLowerCase; decide)).1.trans (by rfl)⟩

/-- C7, counterexample: the parser drops a line feed right after `<pre>`, so
`<pre>`, two line feeds, `foo` is sanitised to `<pre>`, one line feed, `foo`, and
sanitising that output gives `<pre>foo</pre>`: the second pass changes the string. -/
theorem sanitizeHtml_second_pass_changes_pre :
    sampleParse "<pre>\n\nfoo</pre>" = [Node.element .html "pre" [] [Node.text "\nfoo"]] ∧
    sampleParse "<pre>\nfoo</pre>" = [Node.element .html "pre" [] [Node.text "foo"]] ∧
    sanitizeHtml sampleParse "<pre>\n\nfoo</pre>" = "<pre>\nfoo</pre>" ∧
    sanitizeHtml sampleParse (sanitizeHtml sampleParse "<pre>\n\nfoo</pre>") =
      "<pre>foo</pre>" ∧
    sanitizeHtml sampleParse (sanitizeHtml sampleParse "<pre>\n\nfoo</pre>") ≠
      sanitizeHtml sampleParse "<pre>\n\nfoo</pre>" := by
  refine ⟨by rfl, by rfl, by decide, by decide, by decide⟩

/-- C7, amended: the clean-up `sanitizeHtml` performs on the parsed tree is idempotent:
on a parsed tree (attribute names distinct on each element) cleaning an already cleaned
tree changes nothing, so its serialisation is the same string; and
`sanitizeHtml (sanitizeHtml h)` equals `sanitizeHtml h` for each `h` whose sanitised
output the parser reads back as the tree it was serialised from. -/
theorem sanitizeHtml_cleanup_idempotent (nodes : List Node)
    (hdistinct : DistinctAttrNames nodes) :
    sanitizeTree (sanitizeTree nodes) = sanitizeTree nodes ∧
    serializeNodes false (sanitizeTree (sanitizeTree nodes)) =
      serializeNodes false (sanitizeTree nodes) ∧
    ∀ (parseFragment : String → List Node) (html : String),
      parseFragment html = nodes →
      parseFragment (sanitizeHtml parseFragment html) = sanitizeTree nodes →
        sanitizeHtml parseFragment (sanitizeHtml parseFragment html) =
          sanitizeHtml parseFragment html := by
  have hidem := sanitizeTree_idem nodes hdistinct
  refine ⟨hidem, by rw [hidem], ?_⟩
  intro parseFragment html hparse hround
  show serializeNodes false (sanitizeTree (parseFragment (sanitizeHtml parseFragment html))) =
    serializeNodes false (sanitizeTree (parseFragment html))
  rw [hround, hparse, hidem]

/-- C7, witness: a paragraph with an event handler and a script in it, and a template. -/
theorem sanitizeHtml_cleanup_idempotent_witness :
    DistinctAttrNames
        [Node.element .html "p" [⟨"onclick", "f()"⟩, ⟨"id", "a"⟩]
          [Node.text "Hi", Node.element .html "script" [] [Node.text "f()"]],
         Node.template [⟨"onclick", "f()"⟩] [Node.text "t"]] ∧
      sanitizeTree (sanitizeTree
        [Node.element .html "p" [⟨"onclick", "f()"⟩, ⟨"id", "a"⟩]
          [Node.text "Hi", Node.element .html "script" [] [Node.text "f()"]],
         Node.template [⟨"onclick", "f()"⟩] [Node.text "t"]]) =
        [Node.element .html "p" [⟨"id", "a"⟩] [Node.text "Hi"],
         Node.template [] [Node.text "t"]] :=
  ⟨by unfold DistinctAttrNames; decide,
   (sanitizeHtml_cleanup_idempotent _ (by unfold DistinctAttrNames; decide)).1.trans
     (by rfl)⟩

/-! ## Rendering -/

theorem string_ext_data (a b : String) (h : a.data = b.data) : a = b := by
  cases a; cases b; simp_all

theorem foldl_append_map_data {α : Type} (f : α → String) (l : List α) (acc : String) :
    (l.foldl (fun html x => html ++ f x) acc).data =
      acc.data ++ l.flatMap (fun x => (f x).data) := by
  induction l generalizing acc with
  | nil => simp
  | cons x xs ih => simp [ih, String.data_append]

theorem foldl_append_eq_join {α : Type} (f : α → String) (l : List α) :
    l.foldl (fun html x => html ++ f x) "" = String.join (l.map f) := by
  apply string_ext_data
  rw [foldl_append_map_data, join_data, List.flatMap_map]
  simp

theorem intercalate_go_data (acc : String) (l : List String) :
    (String.intercalate.go acc "" l).data = acc.data ++ l.flatMap String.data := by
  induction l generalizing acc with
  | nil => simp [String.intercalate.go]
  | cons x xs ih => simp [String.intercalate.go, ih, String.data_append]

theorem intercalate_empty_eq_join (l : List String) : "".intercalate l = String.join l := by
  apply string_ext_data
  cases l with
  | nil => simp [String.intercalate, join_data]
  | cons x xs => simp [String.intercalate, intercalate_go_data, join_data, List.flatMap]

theorem join_append (l1 l2 : List String) :
    String.join (l1 ++ l2) = String.join l1 ++ String.join l2 := by
  apply string_ext_data
  simp [join_data, String.data_append]

theorem join_cons (x : String) (l : List String) :
    String.join (x :: l) = x ++ String.join l := by
  apply string_ext_data
  simp [join_data, String.data_append]

theorem renderFactsheets_eq_join (kind : String) (parseFragment : String → List Node)
    (toLocaleDateString : String → String) (factsheets : List ContentItem)
    (hne : factsheets ≠ []) :
    renderFactsheets kind parseFragment toLocaleDateString factsheets =
      String.join (factsheets.map (itemFragment parseFragment toLocaleDateString)) := by
  have hlen : factsheets.length ≠ 0 := fun h => hne (List.length_eq_zero.mp h)
  simp only [renderFactsheets, hlen, if_false]
  exact foldl_append_eq_join _ _

theorem itemFragment_link_split (parseFragment : String → List Node)
    (toLocaleDateString : String → String) (item : ContentItem) :
    ∃ before after : String,
      (∀ link : String, link ≠ "" →
        itemFragment parseFragment toLocaleDateString { item with link := some link } =
          before ++
            ("<p><a href=\"" ++ escapeHtml link ++
              "\" target=\"_blank\" rel=\"noopener noreferrer\">View Link: " ++
              escapeHtml link ++ "</a></p>") ++ after) ∧
      itemFragment parseFragment toLocaleDateString { item with link := none } =
        before ++ after ∧
      itemFragment parseFragment toLocaleDateString { item with link := some "" } =
        before ++ after := by
  refine ⟨"\n        <div class=\"item\">\n          <h3>" ++
      escapeHtml (orDefault item.title "No title") ++ "</h3>\n          " ++
      (if (match item.createdAt with
            | some c => if c = "" then "" else toLocaleDateString c
            | none => "") = "" then ""
       else "<p><small>Created: " ++
         (match item.createdAt with
          | some c => if c = "" then "" else toLocaleDateString c
          | none => "") ++ "</small></p>") ++
      "\n          <div class=\"intro\">" ++
      sanitizeHtml parseFragment (orDefault item.intro "No introduction") ++
      "</div>\n          " ++ formatSections parseFragment (some (item.sections.getD [])) ++
      "\n          ", "\n        </div>\n      ", ?_, ?_, ?_⟩
  · intro link hlink
    simp [itemFragment, orDefault, hlink, String.append_assoc]
  · simp [itemFragment, orDefault, String.append_assoc]
  · simp [itemFragment, orDefault, String.append_assoc]

/-- C8: for every content item with a non-empty link `L`, the markup rendered for a list
that holds the item contains the anchor
`<a href="E" target="_blank" rel="noopener noreferrer">View Link: E</a>` with
`E = escapeHtml L` as the `href` value and in the label; the anchor's paragraph is the
only part of the item's fragment that depends on the link, and with no link (absent or
empty) nothing stands in its place. -/
theorem renderFactsheets_link_anchor (kind : String) (parseFragment : String → List Node)
    (toLocaleDateString : String → String) (factsheets : List ContentItem)
    (item : ContentItem) (link : String) (hmem : item ∈ factsheets)
    (hlink : item.link = some link) (hne : link ≠ "") :
    ("<a href=\"" ++ escapeHtml link ++
        "\" target=\"_blank\" rel=\"noopener noreferrer\">View Link: " ++ escapeHtml link ++
        "</a>").data <:+:
      (renderFactsheets kind parseFragment toLocaleDateString factsheets).data ∧
    ∃ before after : String,
      itemFragment parseFragment toLocaleDateString item =
        before ++
          ("<p><a href=\"" ++ escapeHtml link ++
            "\" target=\"_blank\" rel=\"noopener noreferrer\">View Link: " ++
            escapeHtml link ++ "</a></p>") ++ after ∧
      itemFragment parseFragment toLocaleDateString { item with link := none } =
        before ++ after ∧
      itemFragment parseFragment toLocaleDateString { item with link := some "" } =
        before ++ after := by
  obtain ⟨before, after, h1, h2, h3⟩ :=
    itemFragment_link_split parseFragment toLocaleDateString item
  have hitem : { item with link := some link } = item := by
    cases item; simp_all
  have h1' := h1 link hne
  rw [hitem] at h1'
  refine ⟨?_, before, after, h1', h2, h3⟩
  obtain ⟨l1, l2, hsplit⟩ := List.append_of_mem hmem
  have hne' : factsheets ≠ [] := by rw [hsplit]; simp
  rw [renderFactsheets_eq_join _ _ _ _ hne', hsplit, List.map_append, List.map_cons,
    join_append, join_cons, h1']
  have hopen : "<p><a href=\"" = "<p>" ++ "<a href=\"" := by decide
  have hclose : "</a></p>" = "</a>" ++ "</p>" := by decide
  rw [hopen, hclose]
  refine ⟨(String.join (l1.map (itemFragment parseFragment toLocaleDateString))).data ++
      before.data ++ "<p>".data,
    "</p>".data ++ after.data ++
      (String.join (l2.map (itemFragment parseFragment toLocaleDateString))).data, ?_⟩
  simp only [String.data_append, List.append_assoc]
/-- C8, witness: one item whose link is `https://example.com`. -/
theorem renderFactsheets_link_anchor_witness :
    ("<a href=\"https://example.com\" target=\"_blank\" rel=\"noopener noreferrer\">" ++
        "View Link: https://example.com</a>").data <:+:
      (renderFactsheets "factsheets" sampleParse (fun d => d)
        [⟨some "Rates", some "<p>Hi</p>", none, some "https://example.com", none⟩]).data :=
  (renderFactsheets_link_anchor "factsheets" sampleParse (fun d => d)
    [⟨some "Rates", some "<p>Hi</p>", none, some "https://example.com", none⟩]
    ⟨some "Rates", some "<p>Hi</p>", none, some "https://example.com", none⟩
    "https://example.com" (by simp) rfl (by decide)).1

theorem formatSections_eq_join (parseFragment : String → List Node) (sections : List Section)
    (hne : sections ≠ []) :
    formatSections parseFragment (some sections) =
      String.join (sections.map (sectionFragment parseFragment)) := by
  have hlen : sections.length ≠ 0 := fun h => hne (List.length_eq_zero.mp h)
  simp only [formatSections, hlen, if_false]
  exact foldl_append_eq_join _ _

/-- C10: for every non-empty list of content items, the markup is the concatenation of
one fragment per item in input order; inside an item's fragment the sections block is
the concatenation of one fragment per section in array order, the text around it not
depending on the sections; and inside a section's fragment the content block is the
concatenation of one sanitised paragraph per content entry in array order, the text
around it not depending on the content.  Nothing is reordered, dropped or merged. -/
theorem renderFactsheets_preserves_order (kind : String)
    (parseFragment : String → List Node) (toLocaleDateString : String → String)
    (factsheets : List ContentItem) (hne : factsheets ≠ []) :
    renderFactsheets kind parseFragment toLocaleDateString factsheets =
      String.join (factsheets.map (itemFragment parseFragment toLocaleDateString)) ∧
    (∀ item : ContentItem, ∃ before after : String,
      ∀ sections : List Section, sections ≠ [] →
        itemFragment parseFragment toLocaleDateString { item with sections := some sections } =
          before ++ String.join (sections.map (sectionFragment parseFragment)) ++ after) ∧
    (∀ sec : Section, ∃ before after : String,
      ∀ content : List String,
        sectionFragment parseFragment { sec with content := some content } =
          before ++
            String.join (content.map (fun c =>
              "<div class=\"section-content\">" ++ sanitizeHtml parseFragment c ++ "</div>")) ++
            after) := by
  refine ⟨renderFactsheets_eq_join _ _ _ _ hne, ?_, ?_⟩
  · intro item
    refine ⟨"\n        <div class=\"item\">\n          <h3>" ++
        escapeHtml (orDefault item.title "No title") ++ "</h3>\n          " ++
        (if (match item.createdAt with
              | some c => if c = "" then "" else toLocaleDateString c
              | none => "") = "" then ""
         else "<p><small>Created: " ++
           (match item.createdAt with
            | some c => if c = "" then "" else toLocaleDateString c
            | none => "") ++ "</small></p>") ++
        "\n          <div class=\"intro\">" ++
        sanitizeHtml parseFragment (orDefault item.intro "No introduction") ++
        "</div>\n          ",
      "\n          " ++
        (if orDefault item.link "" = "" then ""
         else "<p><a href=\"" ++ escapeHtml (orDefault item.link "") ++
           "\" target=\"_blank\" rel=\"noopener noreferrer\">View Link: " ++
           escapeHtml (orDefault item.link "") ++ "</a></p>") ++
        "\n        </div>\n      ", ?_⟩
    intro sections hs
    simp only [itemFragment, Option.getD_some, formatSections_eq_join _ _ hs,
      String.append_assoc]
  · intro sec
    refine ⟨"\n        <div class=\"section\">\n          <h4>" ++
        escapeHtml (orDefault sec.title "Untitled Section") ++ "</h4>\n          ",
      "\n        </div>\n      ", ?_⟩
    intro content
    simp only [sectionFragment, intercalate_empty_eq_join, String.append_assoc]

/-- C10, witness: two items, the first with two sections of two and one paragraphs. -/
theorem renderFactsheets_preserves_order_witness :
    renderFactsheets "newsletters" sampleParse (fun d => d)
        [⟨some "A", some "<p>Hi</p>",
            some [⟨some "S1", some ["<p>Hi</p>", "x"]⟩, ⟨some "S2", some ["y"]⟩], none, none⟩,
         ⟨some "B", none, none, none, some "2020-01-01"⟩] =
      String.join
        ([⟨some "A", some "<p>Hi</p>",
            some [⟨some "S1", some ["<p>Hi</p>", "x"]⟩, ⟨some "S2", some ["y"]⟩], none, none⟩,
          ⟨some "B", none, none, none, some "2020-01-01"⟩].map
          (itemFragment sampleParse (fun d => d))) :=
  (renderFactsheets_preserves_order "newsletters" sampleParse (fun d => d) _ (by simp)).1

/-! ## `fetchData` -/

/-- C9, at the failing input: a response with `ok = false`, status 502 and a body that is
not JSON makes the error block show the message of the JSON parser's error, not
`HTTP error! status: 502`; a JSON body with a `message` is shown as the claim says. -/
theorem fetchData_shows_parse_error (typeErrorMessage : String)
    (showData : JsonBody → Except String String) :
    fetchData typeErrorMessage showData
        (.ok ⟨false, 502, .error "Unexpected token < in JSON at position 0"⟩) =
      "<div class=\"error\">Error: Unexpected token < in JSON at position 0</div>" ∧
    fetchData typeErrorMessage showData
        (.ok ⟨false, 502, .error "Unexpected token < in JSON at position 0"⟩) ≠
      "<div class=\"error\">Error: HTTP error! status: 502</div>" ∧
    fetchData typeErrorMessage showData
        (.ok ⟨false, 401, .ok (.value (some (.string "Invalid key")))⟩) =
      "<div class=\"error\">Error: Invalid key</div>" := by
  refine ⟨rfl, ?_, rfl⟩
  show "<div class=\"error\">Error: Unexpected token < in JSON at position 0</div>" ≠ _
  decide

end Widget
